import Mathlib

/-!
Verification of the `spatial` library (quadtree, base-4 path codec, hash grid,
geometry predicates) against its specification.

The Rust source is shallowly embedded: `f32`/`f64` coordinates are modelled by
`Rat` (all operations used by the embedded code are `+ - * /` by powers of two
and order comparisons, which are exact in both models, except that division by
zero yields `0` in `Rat` and `inf`/NaN in IEEE — no embedded claim relies on a
division by zero); machine integers are `Nat` with explicit `% 2^w` where the
source can wrap (`u32` in the Cantor key, `u128` in the codec blocks);
Rust panics (`unwrap`, slice indexing, the commented assertions) are modelled
by `Option`, `none` meaning a panic; the possibly non-terminating recursive
quadtree insert takes explicit fuel, `none` also standing for exhaustion.
-/

namespace Spatial

/-! ## Base-4 codec (src/codec.rs)

`Base4` packs up to 64 two-bit symbols into a `u128` accumulator, newest symbol
in the low bits.  `Base4Int` is a deque of such blocks, oldest block first
(the Rust `VecDeque`'s front is the list head here); `push` appends to the back
block, `pop_all` drains blocks from the front. -/

structure B4 where
  size : Nat
  encoded : Nat
deriving DecidableEq, Repr, Inhabited

/-- `Base4::push`: `size += 1; encoded = (encoded << 2) | v`.  For `v < 4` the
bit-or equals addition; the `u128` accumulator wraps at `2^128`. -/
def B4.pushB (b : B4) (v : Nat) : B4 :=
  ⟨b.size + 1, (b.encoded * 4 + v) % 2 ^ 128⟩

/-- `Base4::pop_all`: pops `size` symbols (each `encoded & 0b11`, shifting right
by two) and reverses, so the result lists symbols oldest first. -/
def B4.popAllL (b : B4) : List Nat :=
  ((List.range b.size).map (fun i => b.encoded / 4 ^ i % 4)).reverse

/-- The block deque of `Base4Int`, head = oldest block. -/
abbrev B4Int := List B4

/-- `Base4Int::push` via `get_codec`: pushes into the back block if it holds
fewer than 64 symbols, otherwise starts a fresh block at the back. -/
def pushB4I : B4Int → Nat → B4Int
  | [], v => [B4.pushB ⟨0, 0⟩ v]
  | [b], v => if b.size < 64 then [b.pushB v] else [b, B4.pushB ⟨0, 0⟩ v]
  | b :: b' :: rest, v => b :: pushB4I (b' :: rest) v

/-- `Base4Int::push_all`: pushes the symbols in order. -/
def pushAllB4I (q : B4Int) (vs : List Nat) : B4Int :=
  vs.foldl pushB4I q

/-- `Base4Int::pop_all`: drains blocks front (oldest) to back, each block
yielding its symbols oldest first. -/
def popAllB4I (q : B4Int) : List Nat :=
  (q.map B4.popAllL).flatten

/-! ## 2D geometry used by the quadtree (src/lib.rs: `Vector2D`, `Bounds2D`) -/

structure Vector2D where
  x : Rat
  y : Rat
deriving DecidableEq, Repr, Inhabited

/-- The derived `PartialOrd` on `Vector2D(f64, f64)`: lexicographic comparison,
first field first. -/
def vecLt (a b : Vector2D) : Prop :=
  a.x < b.x ∨ (a.x = b.x ∧ a.y < b.y)

instance (a b : Vector2D) : Decidable (vecLt a b) := by
  unfold vecLt; infer_instance

structure Bounds2D where
  min : Vector2D
  max : Vector2D
deriving DecidableEq, Repr, Inhabited

/-- `Bounds2D::contains` (rectangle containment, closed comparisons). -/
def Bounds2D.containsBd (a b : Bounds2D) : Prop :=
  a.min.x ≤ b.min.x ∧ a.min.y ≤ b.min.y ∧ a.max.x ≥ b.max.x ∧ a.max.y ≥ b.max.y

instance (a b : Bounds2D) : Decidable (a.containsBd b) := by
  unfold Bounds2D.containsBd; infer_instance

/-- `Bounds2D::intersects` (strict separating-axis test). -/
def Bounds2D.intersectsBd (a b : Bounds2D) : Prop :=
  a.min.x < b.max.x ∧ a.max.x > b.min.x ∧ a.min.y < b.max.y ∧ a.max.y > b.min.y

instance (a b : Bounds2D) : Decidable (a.intersectsBd b) := by
  unfold Bounds2D.intersectsBd; infer_instance

/-- `Bounds2D::contains_point` (closed comparisons). -/
def Bounds2D.containsPt (b : Bounds2D) (p : Vector2D) : Prop :=
  p.x ≥ b.min.x ∧ p.y ≥ b.min.y ∧ p.x ≤ b.max.x ∧ p.y ≤ b.max.y

instance (b : Bounds2D) (p : Vector2D) : Decidable (b.containsPt p) := by
  unfold Bounds2D.containsPt; infer_instance

/-! ## QuadTree (src/quad.rs)

An entity, as the quadtree sees it, is its `EntityID` plus its bounding box
(`IsEntity::id` / `IsEntity::bounding_box`; `position` is unused by quad.rs).
`EntityMap` (a `HashMap<EntityID, (E, LeafPath)>`) becomes an association list
whose head entry shadows later ones — `insert` is modelled by consing, which is
observationally the overwrite the `HashMap` performs; `LeafPath` is `B4Int`. -/

structure QEntity where
  eid : Nat
  box : Bounds2D
deriving DecidableEq, Repr, Inhabited

abbrev EntityMap := List (Nat × QEntity × B4Int)

/-- `EntityMap::get_entity` / the entity half of `get_entity_path_mut`.
Rust unwraps (panics) on a missing key; every call site in the source inserts
the entry first, so the default value is never observed by the theorems. -/
def lookupEnt (m : EntityMap) (id : Nat) : QEntity :=
  match m.lookup id with
  | some v => v.1
  | none => default

/-- The `path.push(nidx)` performed through `get_entity_path_mut`. -/
def pushPath (m : EntityMap) (id : Nat) (nidx : Nat) : EntityMap :=
  m.map (fun kv => if kv.1 = id then (kv.1, kv.2.1, pushB4I kv.2.2 nidx) else kv)

/-- `QuadTreeNode`: `quadrants : Option<[Box<QuadTreeNode>; 4]>` becomes two
constructors, `leaf` for `None` and `branch` carrying the NE/NW/SE/SW children
in the array order of the source. -/
inductive QuadTreeNode : Type where
  | leaf (depth capacity : Nat) (items : List Nat) (boundary : Bounds2D)
  | branch (depth capacity : Nat) (items : List Nat) (boundary : Bounds2D)
      (ne nw se sw : QuadTreeNode)
deriving DecidableEq, Repr, Inhabited

def QuadTreeNode.boundaryOf : QuadTreeNode → Bounds2D
  | .leaf _ _ _ b => b
  | .branch _ _ _ b _ _ _ _ => b

def QuadTreeNode.itemsOf : QuadTreeNode → List Nat
  | .leaf _ _ items _ => items
  | .branch _ _ items _ _ _ _ _ => items

/-- `QuadTreeNode::max_subtree_depth`: a leaf reports its own depth, a branch
the maximum over its four children. -/
def QuadTreeNode.msd : QuadTreeNode → Nat
  | .leaf d _ _ _ => d
  | .branch _ _ _ _ ne nw se sw =>
      Nat.max (Nat.max ne.msd nw.msd) (Nat.max se.msd sw.msd)

abbrev Quads := QuadTreeNode × QuadTreeNode × QuadTreeNode × QuadTreeNode

/-- `QuadTreeNode::subdivide`, verbatim from the source, including its
`let (min, max) = (self.boundary.max, self.boundary.min)` binding, which names
the boundary maximum `min` and the boundary minimum `max`. -/
def subdivideQuads (boundary : Bounds2D) (capacity depth : Nat) : Quads :=
  let center : Vector2D :=
    ⟨(boundary.min.x + boundary.max.x) / 2, (boundary.min.y + boundary.max.y) / 2⟩
  let minV := boundary.max
  let maxV := boundary.min
  let ne : Bounds2D := ⟨center, boundary.max⟩
  let nw : Bounds2D := ⟨⟨minV.x, center.y⟩, ⟨center.x, maxV.y⟩⟩
  let se : Bounds2D := ⟨⟨center.x, minV.y⟩, ⟨maxV.x, center.y⟩⟩
  let sw : Bounds2D := ⟨boundary.min, center⟩
  (.leaf (depth + 1) capacity [] ne, .leaf (depth + 1) capacity [] nw,
   .leaf (depth + 1) capacity [] se, .leaf (depth + 1) capacity [] sw)

/-- Result of a node insert: the updated node, the updated entity map, the
returned boolean, and an instrumentation bit recording whether the
`subdivide` branch ran anywhere in the call (not part of the Rust state). -/
abbrev InsRes := QuadTreeNode × EntityMap × Bool × Bool

instance : DecidableEq InsRes := instDecidableEqProd

/-- The `quads.iter_mut().enumerate().any(|(nidx, quad)| quad.insert(id, map, nidx))`
of `QuadTreeNode::insert`: try NE, NW, SE, SW in order, short-circuiting at the
first child that accepts; state from failed attempts is kept (a failed insert
leaves the child and map unchanged in the source, but we thread it faithfully). -/
def tryQuadsWith (ins : Nat → EntityMap → Nat → QuadTreeNode → Option InsRes)
    (id : Nat) (m : EntityMap) (q : Quads) :
    Option (Quads × EntityMap × Bool × Bool) :=
  match ins id m 0 q.1 with
  | none => none
  | some (ne, m1, b1, s1) =>
    if b1 then some ((ne, q.2.1, q.2.2.1, q.2.2.2), m1, true, s1)
    else
      match ins id m1 1 q.2.1 with
      | none => none
      | some (nw, m2, b2, s2) =>
        if b2 then some ((ne, nw, q.2.2.1, q.2.2.2), m2, true, s1 || s2)
        else
          match ins id m2 2 q.2.2.1 with
          | none => none
          | some (se, m3, b3, s3) =>
            if b3 then some ((ne, nw, se, q.2.2.2), m3, true, s1 || s2 || s3)
            else
              match ins id m3 3 q.2.2.2 with
              | none => none
              | some (sw, m4, b4, s4) =>
                some ((ne, nw, se, sw), m4, b4, s1 || s2 || s3 || s4)

/-- The redistribution loop of `QuadTreeNode::insert`: each id taken out of
`items` is offered to the four children; ids no child accepts are pushed back
onto `items` (the accumulator `keep`), in order. -/
def reinsertWith
    (tq : Nat → EntityMap → Quads → Option (Quads × EntityMap × Bool × Bool)) :
    List Nat → Quads → List Nat → EntityMap →
    Option (Quads × List Nat × EntityMap × Bool)
  | [], q, keep, m => some (q, keep, m, false)
  | id :: rest, q, keep, m =>
    match tq id m q with
    | none => none
    | some (q1, m1, acc, s1) =>
      match reinsertWith tq rest q1 (if acc then keep else keep ++ [id]) m1 with
      | none => none
      | some (q2, keep2, m2, s2) => some (q2, keep2, m2, s1 || s2)

/-- `QuadTreeNode::insert(id, map, nidx)` with fuel.  Steps, as in the source:
reject if the entity's bounding box is not contained in this node's boundary;
push `nidx` onto the entity's path; append to `items` if below capacity;
otherwise subdivide if a leaf, move all of `items` plus the new id into the
children where possible, keep the stragglers here, and return `true`. -/
def insertF : Nat → Nat → EntityMap → Nat → QuadTreeNode → Option InsRes
  | 0, _, _, _, _ => none
  | fuel + 1, id, m, nidx, n =>
    let e := lookupEnt m id
    match n with
    | .leaf d cap items bdy =>
      if ¬ bdy.containsBd e.box then some (.leaf d cap items bdy, m, false, false)
      else
        let m1 := pushPath m id nidx
        if items.length < cap then
          some (.leaf d cap (items ++ [id]) bdy, m1, true, false)
        else
          match reinsertWith (tryQuadsWith (insertF fuel)) items
              (subdivideQuads bdy cap d) [] m1 with
          | none => none
          | some (q1, keep, m2, _s1) =>
            match tryQuadsWith (insertF fuel) id m2 q1 with
            | none => none
            | some (q2, m3, acc, _s2) =>
              some (.branch d cap (if acc then keep else keep ++ [id]) bdy
                q2.1 q2.2.1 q2.2.2.1 q2.2.2.2, m3, true, true)
    | .branch d cap items bdy ne nw se sw =>
      if ¬ bdy.containsBd e.box then
        some (.branch d cap items bdy ne nw se sw, m, false, false)
      else
        let m1 := pushPath m id nidx
        if items.length < cap then
          some (.branch d cap (items ++ [id]) bdy ne nw se sw, m1, true, false)
        else
          match reinsertWith (tryQuadsWith (insertF fuel)) items (ne, nw, se, sw) [] m1 with
          | none => none
          | some (q1, keep, m2, s1) =>
            match tryQuadsWith (insertF fuel) id m2 q1 with
            | none => none
            | some (q2, m3, acc, s2) =>
              some (.branch d cap (if acc then keep else keep ++ [id]) bdy
                q2.1 q2.2.1 q2.2.2.1 q2.2.2.2, m3, true, s1 || s2)

inductive SpatialError where
  | invalidBounds
  | invalidCapacity
  | outOfBounds
deriving DecidableEq, Repr

structure QTree where
  map : EntityMap
  root : QuadTreeNode
deriving DecidableEq, Repr

/-- `QuadTree::new`: `ensure!(capacity > 0)`, then
`ensure!(boundary_min < boundary_max)` under the derived lexicographic order. -/
def quadTreeNew (mn mx : Vector2D) (capacity : Nat) : Except SpatialError QTree :=
  if capacity = 0 then .error .invalidCapacity
  else if ¬ vecLt mn mx then .error .invalidBounds
  else .ok ⟨[], .leaf 0 capacity [] ⟨mn, mx⟩⟩

/-- `QuadTree::insert`: out-of-bounds check against the root boundary, record
the entity in the map with an empty path, then insert at the root with node
index 0. -/
def treeInsert (fuel : Nat) (t : QTree) (e : QEntity) : Option (Except SpatialError (QTree × Bool)) :=
  if ¬ (t.root.boundaryOf).containsBd e.box then some (.error .outOfBounds)
  else
    let m1 : EntityMap := (e.eid, e, ([] : B4Int)) :: t.map
    match insertF fuel e.eid m1 0 t.root with
    | none => none
    | some (n1, m2, b, _) => some (.ok (⟨m2, n1⟩, b))

/-- `QuadTree::levels` = `root.max_subtree_depth() + 1`. -/
def levelsT (t : QTree) : Nat :=
  t.root.msd + 1

/-- `QuadTreeNode::query_with_point` with the always-true predicate that
`QuadTree::query_point` passes: collect, at every node whose boundary contains
the point, the entities among `items` whose bounding box contains the point,
then recurse into the children. -/
def queryWithPoint (p : Vector2D) (m : EntityMap) : QuadTreeNode → List QEntity
  | .leaf _ _ items bdy =>
    if ¬ bdy.containsPt p then []
    else items.filterMap (fun id =>
      let e := lookupEnt m id
      if e.box.containsPt p then some e else none)
  | .branch _ _ items bdy ne nw se sw =>
    if ¬ bdy.containsPt p then []
    else
      (items.filterMap (fun id =>
        let e := lookupEnt m id
        if e.box.containsPt p then some e else none)) ++
      queryWithPoint p m ne ++ queryWithPoint p m nw ++
      queryWithPoint p m se ++ queryWithPoint p m sw

/-- `QuadTree::query_point`: `None` when the collector stays empty. -/
def queryPoint (t : QTree) (p : Vector2D) : Option (List QEntity) :=
  let c := queryWithPoint p t.map t.root
  if c.isEmpty then none else some c

/-! ## Geometry predicates (src/lib.rs: `GeoTypes`)

`contains`/`intersects` return `Option Bool`: `none` models the `panic!` the
source raises on an unsupported shape pair. -/

inductive GeoTypes where
  | point (x y : Rat)
  | rect (cx cy sx sy : Rat)
  | radius (r cx cy : Rat)
deriving DecidableEq, Repr

/-- `GeoTypes::rect_min_max`: corners from center and size. -/
def rectMinMax (cx cy sx sy : Rat) : (Rat × Rat) × (Rat × Rat) :=
  ((cx - sx / 2, cy - sy / 2), (cx + sx / 2, cy + sy / 2))

/-- `GeoTypes::disctance_squared` (sic). -/
def distSq (p q : Rat × Rat) : Rat :=
  (p.1 - q.1) * (p.1 - q.1) + (p.2 - q.2) * (p.2 - q.2)

/-- The clamp used by the Rect/Circle intersection: the closest point of the
AABB to the circle center, one axis. -/
def clampAxis (v lo hi : Rat) : Rat :=
  if v < lo then lo else if v > hi then hi else v

/-- `GeoTypes::intersects`.  Defined for Rect/Rect, Circle/Circle and the two
Rect/Circle orders; every pair involving a Point panics (`none`). -/
def intersectsG : GeoTypes → GeoTypes → Option Bool
  | .rect c1x c1y s1x s1y, .rect c2x c2y s2x s2y =>
    let mm1 := rectMinMax c1x c1y s1x s1y
    let mm2 := rectMinMax c2x c2y s2x s2y
    some (decide (mm1.1.1 < mm2.2.1 ∧ mm1.2.1 > mm2.1.1 ∧ mm1.1.2 < mm2.2.2 ∧ mm1.2.2 > mm2.1.2))
  | .radius r1 c1x c1y, .radius r2 c2x c2y =>
    some (decide (distSq (c1x, c1y) (c2x, c2y) ≤ (r1 + r2) * (r1 + r2)))
  | .rect bcx bcy bsx bsy, .radius r rcx rcy =>
    let mm := rectMinMax bcx bcy bsx bsy
    let cx := clampAxis rcx mm.1.1 mm.2.1
    let cy := clampAxis rcy mm.1.2 mm.2.2
    some (decide (distSq (cx, cy) (rcx, rcy) ≤ r * r))
  | .radius r rcx rcy, .rect bcx bcy bsx bsy =>
    let mm := rectMinMax bcx bcy bsx bsy
    let cx := clampAxis rcx mm.1.1 mm.2.1
    let cy := clampAxis rcy mm.1.2 mm.2.2
    some (decide (distSq (cx, cy) (rcx, rcy) ≤ r * r))
  | _, _ => none

/-- `GeoTypes::rect_corners`: top-right, top-left, bottom-right, bottom-left. -/
def rectCorners (cx cy sx sy : Rat) : List (Rat × Rat) :=
  let mm := rectMinMax cx cy sx sy
  [mm.2, (mm.1.1, mm.2.2), (mm.2.1, mm.1.2), mm.1]

/-- `GeoTypes::contains`.  Six supported ordered pairs; the rest panic. -/
def containsG : GeoTypes → GeoTypes → Option Bool
  | .rect cx cy sx sy, .point x y =>
    let mm := rectMinMax cx cy sx sy
    some (decide (x ≥ mm.1.1 ∧ y ≥ mm.1.2 ∧ x ≤ mm.2.1 ∧ y ≤ mm.2.2))
  | .radius r cx cy, .point x y =>
    some (decide (distSq (cx, cy) (x, y) ≤ r * r))
  | .radius r1 c1x c1y, .radius r2 c2x c2y =>
    some (decide (distSq (c1x, c1y) (c2x, c2y) ≤ (r1 - r2) * (r1 - r2) ∧ r1 > r2))
  | .rect c1x c1y s1x s1y, .rect c2x c2y s2x s2y =>
    let mm1 := rectMinMax c1x c1y s1x s1y
    let mm2 := rectMinMax c2x c2y s2x s2y
    some (decide (mm1.1.1 ≤ mm2.1.1 ∧ mm1.1.2 ≤ mm2.1.2 ∧ mm1.2.1 ≥ mm2.2.1 ∧ mm1.2.2 ≥ mm2.2.2))
  | .rect cbx cby sx sy, .radius r cx cy =>
    let mm := rectMinMax cbx cby sx sy
    some (decide (cx - r ≥ mm.1.1 ∧ cx + r ≤ mm.2.1 ∧ cy - r ≥ mm.1.2 ∧ cy + r ≤ mm.2.2))
  | .radius r cx cy, .rect cbx cby sx sy =>
    let mm := rectMinMax cbx cby sx sy
    some (decide (distSq (cx, cy) mm.2 ≤ r * r ∧
      distSq (cx, cy) (mm.1.1, mm.2.2) ≤ r * r ∧
      distSq (cx, cy) (mm.2.1, mm.1.2) ≤ r * r ∧
      distSq (cx, cy) mm.1 ≤ r * r))
  | _, _ => none

/-! ## HashGrid (src/hashgrid/grid.rs, src/hashgrid/mod.rs)

3D coordinates are `Rat × Rat × Rat`.  Buckets hold entity ids (the Rust
buckets hold `&T` references; entities are compared by identity here).
`Option` models the panics reachable through `to_u32`/`to_usize` `unwrap`s and
out-of-range floor indexing. -/

abbrev Coord3 := Rat × Rat × Rat

structure HEntity where
  hid : Nat
  pos : Coord3
deriving DecidableEq, Repr

/-- One floor of the grid: association list from cell hash to bucket. -/
abbrev FloorGrid := List (Nat × List Nat)

structure HGrid where
  grids : List FloorGrid
  xcells : Nat
  ycells : Nat
  floors : Nat
  xsize : Rat
  ysize : Rat
  floorSize : Rat
  center : Coord3
  size : Coord3
  wrap : Bool
deriving DecidableEq, Repr

/-- `Boundary::boundary_max`: center plus half size, per axis. -/
def boundaryMax3 (center size : Coord3) : Coord3 :=
  (center.1 + size.1 / 2, center.2.1 + size.2.1 / 2, center.2.2 + size.2.2 / 2)

/-- `Boundary::boundary_min`: center minus half size, per axis. -/
def boundaryMin3 (center size : Coord3) : Coord3 :=
  (center.1 - size.1 / 2, center.2.1 - size.2.1 / 2, center.2.2 - size.2.2 / 2)

/-- `Boundary::is_inside`, verbatim from the source: each axis compares
`point - centre.abs()` — the absolute value is applied to the centre
coordinate, not to the difference — against the half size, with no lower
bound. -/
def isInsideG (center size : Coord3) (p : Coord3) : Prop :=
  p.1 - |center.1| ≤ size.1 / 2 ∧
  p.2.1 - |center.2.1| ≤ size.2.1 / 2 ∧
  p.2.2 - |center.2.2| ≤ size.2.2 / 2

instance (center size p : Coord3) : Decidable (isInsideG center size p) := by
  unfold isInsideG; infer_instance

/-- The spec's notion of being inside the bounding volume (componentwise
between the boundary minimum and maximum), for comparison with `isInsideG`. -/
def insideVolume (center size : Coord3) (p : Coord3) : Prop :=
  (boundaryMin3 center size).1 ≤ p.1 ∧ p.1 ≤ (boundaryMax3 center size).1 ∧
  (boundaryMin3 center size).2.1 ≤ p.2.1 ∧ p.2.1 ≤ (boundaryMax3 center size).2.1 ∧
  (boundaryMin3 center size).2.2 ≤ p.2.2 ∧ p.2.2 ≤ (boundaryMax3 center size).2.2

instance (center size p : Coord3) : Decidable (insideVolume center size p) := by
  unfold insideVolume; infer_instance

/-- `num_traits` `to_u32` on a floored float: `None` (→ `unwrap` panic) for
negative values or values at or above `2^32`. -/
def toU32 (z : Int) : Option Nat :=
  if 0 ≤ z ∧ z < 2 ^ 32 then some z.toNat else none

/-- `to_usize`, 64-bit. -/
def toUsize (z : Int) : Option Nat :=
  if 0 ≤ z ∧ z < 2 ^ 64 then some z.toNat else none

/-- `HashGrid::new` for a boundary given by center and size. -/
def hashGridNew (cellsX cellsY : Nat) (floors : Nat) (center size : Coord3)
    (wrap : Bool) : HGrid :=
  let fl := Nat.max floors 1
  let xsize := size.1 / (cellsX : Rat)
  let ysize := size.2.1 / (cellsY : Rat)
  let fsize := max (size.2.2 / (fl : Rat)) 1
  ⟨List.replicate fl [], cellsX, cellsY, fl, xsize, ysize, fsize, center, size, wrap⟩

/-- `HashGrid::get_cell_coordinates`: normalise x and y by adding the boundary
maximum and flooring the division by the cell size; the floor index floors
z over the floor height.  Each conversion can panic. -/
def getCellCoords (g : HGrid) (x y z : Rat) : Option (Nat × Nat × Nat) := do
  let mx := boundaryMax3 g.center g.size
  let cx ← toU32 ⌊(x + mx.1) / g.xsize⌋
  let cy ← toU32 ⌊(y + mx.2.1) / g.ysize⌋
  let fl ← toUsize ⌊z / g.floorSize⌋
  return (cx, cy, fl)

/-- `HashGrid::key`: the Cantor pairing `((k1+k2)*(k1+k2+1))/2 + k2` computed
in wrapping `u32` arithmetic. -/
def cantorKeyU32 (k1 k2 : Nat) : Nat :=
  let s := (k1 + k2) % 2 ^ 32
  let s1 := (s + 1) % 2 ^ 32
  let p := s * s1 % 2 ^ 32
  (p / 2 + k2) % 2 ^ 32

/-- Bucket update of `HashGrid::insert`: push onto an occupied cell, create the
cell with a singleton bucket when vacant. -/
def bucketInsert (fg : FloorGrid) (k v : Nat) : FloorGrid :=
  if (fg.lookup k).isSome then
    fg.map (fun kv => if kv.1 = k then (kv.1, kv.2 ++ [v]) else kv)
  else fg ++ [(k, [v])]

/-- The cell-resolution and bucket-append tail of `HashGrid::insert`, applied
to already-validated coordinates. -/
def hgInsertAt (g : HGrid) (c : Coord3) (id : Nat) : Option HGrid := do
  let (cx, cy, fl) ← getCellCoords g c.1 c.2.1 c.2.2
  let h := cantorKeyU32 cx cy
  if hfl : fl < g.grids.length then
    return { g with grids := g.grids.set fl (bucketInsert (g.grids.get ⟨fl, hfl⟩) h id) }
  else none

/-- `HashGrid::insert`: validate with `is_inside`; outside and `wrap` set,
clamp each axis with `v.min(max).max(min)`; outside and `wrap` unset, return
with the grid unchanged; then resolve the cell and append. -/
def hgInsert (g : HGrid) (e : HEntity) : Option HGrid :=
  let mx := boundaryMax3 g.center g.size
  let mn := boundaryMin3 g.center g.size
  let c := e.pos
  if ¬ isInsideG g.center g.size c then
    if g.wrap then
      hgInsertAt g (max (min c.1 mx.1) mn.1,
                    max (min c.2.1 mx.2.1) mn.2.1,
                    max (min c.2.2 mx.2.2) mn.2.2) e.hid
    else some g
  else hgInsertAt g c e.hid

inductive GQueryType where
  | single
  | search (id : Nat)
  | neighbour (radius : Rat)
deriving DecidableEq, Repr

structure GQuery where
  radius : Rat
  ty : GQueryType
  coordinates : Coord3
deriving DecidableEq, Repr

/-- The observable part of `QueryResult` (the echoed query aside): collected
cell hashes and collected bucket data. -/
structure GQueryResult where
  cells : List Nat
  data : List Nat
deriving DecidableEq, Repr

/-- `HashGrid::query`.  The `Single` arm resolves the cell of the query
coordinates and copies that bucket; the `Search` and `Neighbour` arms have
their entire bodies commented out in the source, so the result stays empty. -/
def hgQuery (g : HGrid) (q : GQuery) : Option GQueryResult :=
  match q.ty with
  | .single => do
    let (cx, cy, fl) ← getCellCoords g q.coordinates.1 q.coordinates.2.1 q.coordinates.2.2
    let h := cantorKeyU32 cx cy
    if hfl : fl < g.grids.length then
      match (g.grids.get ⟨fl, hfl⟩).lookup h with
      | some data => return ⟨[h], data⟩
      | none => return ⟨[], []⟩
    else none
  | .search _ => some ⟨[], []⟩
  | .neighbour _ => some ⟨[], []⟩

/-! ## Spec-side comparison definitions and concrete instances -/

/-- Componentwise strict order on `Vector2D`, following the spec's words
"min is strictly less than max componentwise" (for comparison with the derived
lexicographic `vecLt` the source actually uses). -/
def componentwiseLt (a b : Vector2D) : Prop :=
  a.x < b.x ∧ a.y < b.y

instance (a b : Vector2D) : Decidable (componentwiseLt a b) := by
  unfold componentwiseLt; infer_instance

def isOkQT : Except SpatialError QTree → Bool
  | .ok _ => true
  | .error _ => false

/-- The exact Cantor pairing value, as the spec states it. -/
def cantorNat (a b : Nat) : Nat :=
  (a + b) * (a + b + 1) / 2 + b

/-- Shape well-formedness invariants stated by the spec: sizes and radii are
nonnegative. -/
def geoWF : GeoTypes → Prop
  | .point _ _ => True
  | .rect _ _ sx sy => 0 ≤ sx ∧ 0 ≤ sy
  | .radius r _ _ => 0 ≤ r

instance : (g : GeoTypes) → Decidable (geoWF g) := by
  intro g; cases g <;> (unfold geoWF; infer_instance)

/-- Positivity side condition for the Rect ⊇ Rect case of the amended C9: the
inner rectangle has positive width and height. -/
def rectRectPos : GeoTypes → GeoTypes → Prop
  | .rect _ _ _ _, .rect _ _ sx sy => 0 < sx ∧ 0 < sy
  | _, _ => True

instance : (a b : GeoTypes) → Decidable (rectRectPos a b) := by
  intro a b; cases a <;> cases b <;> (unfold rectRectPos; infer_instance)

instance {ε α : Type} [DecidableEq ε] [DecidableEq α] : DecidableEq (Except ε α) :=
  fun a b =>
    match a, b with
    | .ok x, .ok y =>
      match decEq x y with
      | isTrue h => isTrue (by rw [h])
      | isFalse h => isFalse (fun hh => h (Except.ok.inj hh))
    | .error x, .error y =>
      match decEq x y with
      | isTrue h => isTrue (by rw [h])
      | isFalse h => isFalse (fun hh => h (Except.error.inj hh))
    | .ok _, .error _ => isFalse (fun hh => Except.noConfusion hh)
    | .error _, .ok _ => isFalse (fun hh => Except.noConfusion hh)

/-- C1 instance: the four children `subdivide` builds for the parent rectangle
(0,0)–(10,10) with capacity 1, depth 0. -/
def c1q : Quads :=
  subdivideQuads ⟨⟨0, 0⟩, ⟨10, 10⟩⟩ 1 0

/-- C2/C5 instance: the 2×2, one-floor hash grid of the repository's own
`data_insertion_2d` test, except sized 100×100×0 and with `wrap = false`. -/
def c2g0 : HGrid :=
  hashGridNew 2 2 0 (0, 0, 0) (100, 100, 0) false

/-- C2 instance: `c2g0` after inserting entity 5 at (10,10,0); the entity lands
in cell (1,1) of floor 0, cell hash `key(1,1) = 4`. -/
def c2g1 : HGrid :=
  { c2g0 with grids := [[(4, [5])]] }

/-- C5 instance: a 2×2×1 grid over the volume centered at the origin with size
100×100×100, `wrap = false` — the boundary of the repository's own
`point_boundary_validation` test. -/
def c5g : HGrid :=
  hashGridNew 2 2 1 (0, 0, 0) (100, 100, 100) false

/-- C8 instance: the children `subdivide` creates for the root of `c8tA`. -/
def c8q : Quads :=
  subdivideQuads ⟨⟨0, 0⟩, ⟨10, 10⟩⟩ 1 0

/-- C8/C3 instance: a capacity-1 quadtree over (0,0)–(10,10) already holding
entity 1 with box (6,6)–(9,9) at the root. -/
def c8tA : QTree :=
  ⟨[(1, ⟨1, ⟨⟨6, 6⟩, ⟨9, 9⟩⟩⟩, [])], .leaf 0 1 [1] ⟨⟨0, 0⟩, ⟨10, 10⟩⟩⟩

/-- C8 instance: entity 2 whose box (4,4)–(6,6) straddles the center (5,5), so
no single child quadrant can contain it. -/
def c8B : QEntity :=
  ⟨2, ⟨⟨4, 4⟩, ⟨6, 6⟩⟩⟩

/-- C8 instance: the tree produced by inserting `c8B` into `c8tA`: the root
subdivided (children at depth 1), entity 1 moved into NE, entity 2 was kept at
the root as an overflow item. -/
def c8tAfter : QTree :=
  ⟨[(2, ⟨2, ⟨⟨4, 4⟩, ⟨6, 6⟩⟩⟩, [⟨1, 0⟩]), (1, ⟨1, ⟨⟨6, 6⟩, ⟨9, 9⟩⟩⟩, [⟨1, 0⟩])],
   .branch 0 1 [2] ⟨⟨0, 0⟩, ⟨10, 10⟩⟩
     (.leaf 1 1 [1] ⟨⟨5, 5⟩, ⟨10, 10⟩⟩)
     (.leaf 1 1 [] ⟨⟨10, 5⟩, ⟨5, 0⟩⟩)
     (.leaf 1 1 [] ⟨⟨5, 10⟩, ⟨0, 5⟩⟩)
     (.leaf 1 1 [] ⟨⟨0, 0⟩, ⟨5, 5⟩⟩)⟩

/-- C3 witness instance: a fresh capacity-2 tree over (0,0)–(10,10). -/
def c3t0 : QTree :=
  ⟨[], .leaf 0 2 [] ⟨⟨0, 0⟩, ⟨10, 10⟩⟩⟩

def c3e : QEntity :=
  ⟨3, ⟨⟨1, 1⟩, ⟨2, 2⟩⟩⟩

/-- C3 witness instance: `c3t0` after inserting `c3e`. -/
def c3t1 : QTree :=
  ⟨[(3, ⟨3, ⟨⟨1, 1⟩, ⟨2, 2⟩⟩⟩, [⟨1, 0⟩])], .leaf 0 2 [3] ⟨⟨0, 0⟩, ⟨10, 10⟩⟩⟩

/-- C10 witness instances: two entities sharing id 7 with different boxes. -/
def c10e1 : QEntity :=
  ⟨7, ⟨⟨1, 1⟩, ⟨2, 2⟩⟩⟩

def c10e2 : QEntity :=
  ⟨7, ⟨⟨3, 3⟩, ⟨4, 4⟩⟩⟩

/-- Codec block invariant: at most 64 symbols, accumulator below `4^size`. -/
def B4WF (b : B4) : Prop :=
  b.size ≤ 64 ∧ b.encoded < 4 ^ b.size

/-- Deque invariant maintained by `Base4Int`: every block except the newest is
full, and every block is well formed. -/
def B4IntWF (q : B4Int) : Prop :=
  (∀ b ∈ q.dropLast, b.size = 64) ∧ ∀ b ∈ q, B4WF b

end Spatial

namespace Spatial

/-! ## Supporting lemmas -/

theorem two_mul_tri (s : Nat) : 2 * (s * (s + 1) / 2) = s * (s + 1) := by
  obtain ⟨k, hk⟩ := Nat.even_mul_succ_self s
  rw [hk]
  omega

theorem cantor_inj (a b c d : Nat)
    (h : (a + b) * (a + b + 1) / 2 + b = (c + d) * (c + d + 1) / 2 + d) :
    a = c ∧ b = d := by
  have e1 := two_mul_tri (a + b)
  have e2 := two_mul_tri (c + d)
  have hs : a + b = c + d := by
    rcases Nat.lt_trichotomy (a + b) (c + d) with hlt | heq | hgt
    · exfalso
      have hmul : (a + b + 1) * (a + b + 1 + 1) ≤ (c + d) * (c + d + 1) :=
        Nat.mul_le_mul (by omega) (by omega)
      have hexp : (a + b + 1) * (a + b + 1 + 1) = (a + b) * (a + b + 1) + 2 * (a + b + 1) := by
        ring
      set X := (a + b) * (a + b + 1)
      set Y := (c + d) * (c + d + 1)
      omega
    · exact heq
    · exfalso
      have hmul : (c + d + 1) * (c + d + 1 + 1) ≤ (a + b) * (a + b + 1) :=
        Nat.mul_le_mul (by omega) (by omega)
      have hexp : (c + d + 1) * (c + d + 1 + 1) = (c + d) * (c + d + 1) + 2 * (c + d + 1) := by
        ring
      set X := (a + b) * (a + b + 1)
      set Y := (c + d) * (c + d + 1)
      omega
  rw [hs] at h
  omega

theorem key_no_overflow (a b : Nat) (ha : a < 32768) (hb : b < 32768) :
    cantorKeyU32 a b = (a + b) * (a + b + 1) / 2 + b := by
  have h1 : a + b < 2 ^ 32 := by omega
  have h2 : a + b + 1 < 2 ^ 32 := by omega
  have h3 : (a + b) * (a + b + 1) < 2 ^ 32 :=
    lt_of_le_of_lt (Nat.mul_le_mul (show a + b ≤ 65534 by omega) (show a + b + 1 ≤ 65535 by omega))
      (by norm_num)
  have h4 : (a + b) * (a + b + 1) / 2 + b < 2 ^ 32 := by
    set X := (a + b) * (a + b + 1)
    omega
  show ((a + b) % 2 ^ 32 * (((a + b) % 2 ^ 32 + 1) % 2 ^ 32) % 2 ^ 32 / 2 + b) % 2 ^ 32 = _
  rw [Nat.mod_eq_of_lt h1, Nat.mod_eq_of_lt h2, Nat.mod_eq_of_lt h3, Nat.mod_eq_of_lt h4]

theorem popAllL_push (s e v : Nat) (hv : v < 4) (he : e * 4 + v < 2 ^ 128) :
    B4.popAllL ⟨s + 1, (e * 4 + v) % 2 ^ 128⟩ = B4.popAllL ⟨s, e⟩ ++ [v] := by
  rw [Nat.mod_eq_of_lt he]
  unfold B4.popAllL
  simp only [List.range_succ_eq_map, List.map_cons, List.map_map, List.reverse_cons]
  congr 1
  · congr 1
    apply List.map_congr_left
    intro i _
    show (e * 4 + v) / 4 ^ (i + 1) % 4 = e / 4 ^ i % 4
    have h4 : (e * 4 + v) / 4 = e := by omega
    have : (e * 4 + v) / 4 ^ (i + 1) = e / 4 ^ i := by
      rw [pow_succ', ← Nat.div_div_eq_div_mul, h4]
    rw [this]
  · show [(e * 4 + v) / 4 ^ 0 % 4] = [v]
    simp only [pow_zero, Nat.div_one]
    congr 1
    omega

theorem pushB4I_ne_nil (q : B4Int) (v : Nat) : pushB4I q v ≠ [] := by
  match q with
  | [] => simp [pushB4I]
  | [b] =>
    unfold pushB4I
    split <;> simp
  | b :: b' :: rest => simp [pushB4I]

theorem popAllL_single (v : Nat) (hv : v < 4) : B4.popAllL ⟨1, v⟩ = [v] := by
  unfold B4.popAllL
  have hr : List.range 1 = [0] := by simp [List.range_succ]
  show (List.map (fun i => v / 4 ^ i % 4) (List.range 1)).reverse = [v]
  rw [hr]
  simp only [List.map_cons, List.map_nil, List.reverse_singleton, pow_zero, Nat.div_one]
  rw [Nat.mod_eq_of_lt hv]

theorem fresh_block_wf (v : Nat) (hv : v < 4) : B4WF (B4.pushB ⟨0, 0⟩ v) := by
  have hv128 : (0 * 4 + v) % 2 ^ 128 = v := by omega
  unfold B4WF B4.pushB
  constructor
  · show 0 + 1 ≤ 64
    omega
  · show (0 * 4 + v) % 2 ^ 128 < 4 ^ (0 + 1)
    rw [hv128]
    omega

theorem fresh_block_pop (v : Nat) (hv : v < 4) : B4.popAllL (B4.pushB ⟨0, 0⟩ v) = [v] := by
  have hv128 : (0 * 4 + v) % 2 ^ 128 = v := by omega
  show B4.popAllL ⟨0 + 1, (0 * 4 + v) % 2 ^ 128⟩ = [v]
  rw [hv128]
  exact popAllL_single v hv

theorem push_block_wf (b : B4) (v : Nat) (hv : v < 4) (hwf : B4WF b) (hlt : b.size < 64) :
    b.encoded * 4 + v < 2 ^ 128 ∧ B4WF (b.pushB v) := by
  have h1 : b.encoded * 4 + v < 4 ^ (b.size + 1) := by
    calc b.encoded * 4 + v < b.encoded * 4 + 4 := by omega
      _ = (b.encoded + 1) * 4 := by ring
      _ ≤ 4 ^ b.size * 4 := Nat.mul_le_mul_right 4 hwf.2
      _ = 4 ^ (b.size + 1) := (pow_succ 4 b.size).symm
  have he : b.encoded * 4 + v < 2 ^ 128 :=
    calc b.encoded * 4 + v < 4 ^ (b.size + 1) := h1
      _ ≤ 4 ^ 64 := Nat.pow_le_pow_right (by omega) (by omega)
      _ = 2 ^ 128 := by norm_num
  refine ⟨he, ?_, ?_⟩
  · show b.size + 1 ≤ 64
    omega
  · show (b.encoded * 4 + v) % 2 ^ 128 < 4 ^ (b.size + 1)
    rw [Nat.mod_eq_of_lt he]
    exact h1

theorem push_step (q : B4Int) (v : Nat) (hv : v < 4) (h : B4IntWF q) :
    B4IntWF (pushB4I q v) ∧ popAllB4I (pushB4I q v) = popAllB4I q ++ [v] := by
  induction q with
  | nil =>
    have hpush : pushB4I [] v = [B4.pushB ⟨0, 0⟩ v] := rfl
    rw [hpush]
    refine ⟨⟨?_, ?_⟩, ?_⟩
    · intro x hx
      simp at hx
    · intro x hx
      simp at hx
      rw [hx]
      exact fresh_block_wf v hv
    · show B4.popAllL (B4.pushB ⟨0, 0⟩ v) ++ [] = [] ++ [v]
      rw [fresh_block_pop v hv]
      simp
  | cons b q ih =>
    cases q with
    | nil =>
      have hwf : B4WF b := h.2 b (by simp)
      by_cases hlt : b.size < 64
      · obtain ⟨he, hwf2⟩ := push_block_wf b v hv hwf hlt
        have hpush : pushB4I [b] v = [b.pushB v] := by
          simp [pushB4I, hlt]
        rw [hpush]
        refine ⟨⟨?_, ?_⟩, ?_⟩
        · intro x hx
          simp at hx
        · intro x hx
          simp at hx
          rw [hx]
          exact hwf2
        · show B4.popAllL (b.pushB v) ++ [] = (B4.popAllL b ++ []) ++ [v]
          have hb : b.pushB v = ⟨b.size + 1, (b.encoded * 4 + v) % 2 ^ 128⟩ := rfl
          have hb2 : (⟨b.size, b.encoded⟩ : B4) = b := rfl
          rw [hb, popAllL_push b.size b.encoded v hv he, hb2]
          simp
      · have hfull : b.size = 64 := by
          have := hwf.1
          omega
        have hpush : pushB4I [b] v = [b, B4.pushB ⟨0, 0⟩ v] := by
          simp [pushB4I, hlt]
        rw [hpush]
        refine ⟨⟨?_, ?_⟩, ?_⟩
        · intro x hx
          simp [List.dropLast] at hx
          rw [hx]
          exact hfull
        · intro x hx
          simp at hx
          rcases hx with hx | hx
          · rw [hx]
            exact hwf
          · rw [hx]
            exact fresh_block_wf v hv
        · show B4.popAllL b ++ (B4.popAllL (B4.pushB ⟨0, 0⟩ v) ++ []) = (B4.popAllL b ++ []) ++ [v]
          rw [fresh_block_pop v hv]
          simp
    | cons b2 rest =>
      have htail : B4IntWF (b2 :: rest) := by
        constructor
        · intro x hx
          apply h.1
          rw [List.dropLast_cons_of_ne_nil (by simp)]
          simpa using Or.inr hx
        · intro x hx
          exact h.2 x (by simp [hx])
      obtain ⟨ihwf, ihpop⟩ := ih htail
      have hpush : pushB4I (b :: b2 :: rest) v = b :: pushB4I (b2 :: rest) v := by
        simp [pushB4I]
      rw [hpush]
      refine ⟨⟨?_, ?_⟩, ?_⟩
      · intro x hx
        rw [List.dropLast_cons_of_ne_nil (pushB4I_ne_nil _ _)] at hx
        simp at hx
        rcases hx with hx | hx
        · rw [hx]
          apply h.1
          rw [List.dropLast_cons_of_ne_nil (by simp)]
          simp
        · exact ihwf.1 x hx
      · intro x hx
        simp at hx
        rcases hx with hx | hx
        · rw [hx]
          exact h.2 b (by simp)
        · exact ihwf.2 x hx
      · show B4.popAllL b ++ popAllB4I (pushB4I (b2 :: rest) v) =
          (B4.popAllL b ++ popAllB4I (b2 :: rest)) ++ [v]
        rw [ihpop, List.append_assoc]

theorem push_all_steps (vs : List Nat) :
    ∀ q : B4Int, B4IntWF q → (∀ v ∈ vs, v < 4) →
    popAllB4I (pushAllB4I q vs) = popAllB4I q ++ vs := by
  induction vs with
  | nil => intro q _ _; simp [pushAllB4I]
  | cons v vs ih =>
    intro q hq hvs
    have hv : v < 4 := hvs v (by simp)
    obtain ⟨hwf, hpop⟩ := push_step q v hv hq
    have : pushAllB4I q (v :: vs) = pushAllB4I (pushB4I q v) vs := rfl
    rw [this, ih (pushB4I q v) hwf (fun x hx => hvs x (by simp [hx])), hpop,
      List.append_assoc]
    rfl

theorem tryQuads_msd
    (ins : Nat → EntityMap → Nat → QuadTreeNode → Option InsRes)
    (Hins : ∀ id m nidx n r, ins id m nidx n = some r → r.2.2.2 = false → r.1.msd = n.msd)
    (id : Nat) (m : EntityMap) (q : Quads) (r : Quads × EntityMap × Bool × Bool)
    (h : tryQuadsWith ins id m q = some r) (hs : r.2.2.2 = false) :
    r.1.1.msd = q.1.msd ∧ r.1.2.1.msd = q.2.1.msd ∧
    r.1.2.2.1.msd = q.2.2.1.msd ∧ r.1.2.2.2.msd = q.2.2.2.msd := by
  unfold tryQuadsWith at h
  rcases h1 : ins id m 0 q.1 with _ | ⟨ne1, m1, b1, s1⟩ <;> rw [h1] at h
  · simp at h
  dsimp only at h
  cases b1 with
  | true =>
    rw [if_pos rfl] at h
    cases h
    exact ⟨Hins id m 0 q.1 _ h1 hs, rfl, rfl, rfl⟩
  | false =>
    rw [if_neg (by simp)] at h
    rcases h2 : ins id m1 1 q.2.1 with _ | ⟨nw1, m2, b2, s2⟩ <;> rw [h2] at h
    · simp at h
    dsimp only at h
    cases b2 with
    | true =>
      rw [if_pos rfl] at h
      cases h
      obtain ⟨hsa, hsb⟩ := Bool.or_eq_false_iff.mp (show (s1 || s2) = false from hs)
      exact ⟨Hins id m 0 q.1 _ h1 hsa, Hins id m1 1 q.2.1 _ h2 hsb, rfl, rfl⟩
    | false =>
      rw [if_neg (by simp)] at h
      rcases h3 : ins id m2 2 q.2.2.1 with _ | ⟨se1, m3, b3, s3⟩ <;> rw [h3] at h
      · simp at h
      dsimp only at h
      cases b3 with
      | true =>
        rw [if_pos rfl] at h
        cases h
        have h12 := Bool.or_eq_false_iff.mp (show (s1 || s2 || s3) = false from hs)
        have h12a := Bool.or_eq_false_iff.mp h12.1
        exact ⟨Hins id m 0 q.1 _ h1 h12a.1, Hins id m1 1 q.2.1 _ h2 h12a.2,
          Hins id m2 2 q.2.2.1 _ h3 h12.2, rfl⟩
      | false =>
        rw [if_neg (by simp)] at h
        rcases h4 : ins id m3 3 q.2.2.2 with _ | ⟨sw1, m4, b4, s4⟩ <;> rw [h4] at h
        · simp at h
        dsimp only at h
        cases h
        have hsall : s1 = false ∧ s2 = false ∧ s3 = false ∧ s4 = false := by
          have := show (s1 || s2 || s3 || s4) = false from hs
          simp only [Bool.or_eq_false_iff] at this
          exact ⟨this.1.1.1, this.1.1.2, this.1.2, this.2⟩
        exact ⟨Hins id m 0 q.1 _ h1 hsall.1, Hins id m1 1 q.2.1 _ h2 hsall.2.1,
          Hins id m2 2 q.2.2.1 _ h3 hsall.2.2.1, Hins id m3 3 q.2.2.2 _ h4 hsall.2.2.2⟩

theorem reinsert_msd
    (tq : Nat → EntityMap → Quads → Option (Quads × EntityMap × Bool × Bool))
    (Htq : ∀ id m q r, tq id m q = some r → r.2.2.2 = false →
      r.1.1.msd = q.1.msd ∧ r.1.2.1.msd = q.2.1.msd ∧
      r.1.2.2.1.msd = q.2.2.1.msd ∧ r.1.2.2.2.msd = q.2.2.2.msd) :
    ∀ (ids : List Nat) (q : Quads) (keep : List Nat) (m : EntityMap)
      (r : Quads × List Nat × EntityMap × Bool),
      reinsertWith tq ids q keep m = some r → r.2.2.2 = false →
      r.1.1.msd = q.1.msd ∧ r.1.2.1.msd = q.2.1.msd ∧
      r.1.2.2.1.msd = q.2.2.1.msd ∧ r.1.2.2.2.msd = q.2.2.2.msd := by
  intro ids
  induction ids with
  | nil =>
    intro q keep m r h hs
    unfold reinsertWith at h
    cases h
    exact ⟨rfl, rfl, rfl, rfl⟩
  | cons id rest ih =>
    intro q keep m r h hs
    unfold reinsertWith at h
    rcases h1 : tq id m q with _ | ⟨q1, m1, acc, s1⟩ <;> rw [h1] at h
    · simp at h
    dsimp only at h
    rcases h2 : reinsertWith tq rest q1 (if acc = true then keep else keep ++ [id]) m1 with
      _ | ⟨q2, keep2, m2, s2⟩ <;> rw [h2] at h
    · simp at h
    cases h
    obtain ⟨hsa, hsb⟩ := Bool.or_eq_false_iff.mp (show (s1 || s2) = false from hs)
    obtain ⟨e1, e2, e3, e4⟩ := Htq id m q _ h1 hsa
    obtain ⟨f1, f2, f3, f4⟩ := ih q1 _ m1 _ h2 hsb
    exact ⟨f1.trans e1, f2.trans e2, f3.trans e3, f4.trans e4⟩

theorem insertF_msd :
    ∀ (fuel id : Nat) (m : EntityMap) (nidx : Nat) (n : QuadTreeNode) (r : InsRes),
      insertF fuel id m nidx n = some r → r.2.2.2 = false → r.1.msd = n.msd := by
  intro fuel
  induction fuel with
  | zero =>
    intro id m nidx n r h _
    simp [insertF] at h
  | succ f ih =>
    intro id m nidx n r h hs
    have Hins : ∀ id m nidx n r, insertF f id m nidx n = some r → r.2.2.2 = false →
        r.1.msd = n.msd := fun a b c d e h1 h2 => ih a b c d e h1 h2
    cases n with
    | leaf d cap items bdy =>
      simp only [insertF] at h
      by_cases hc : bdy.containsBd (lookupEnt m id).box
      · rw [if_neg (not_not_intro hc)] at h
        by_cases hlen : items.length < cap
        · rw [if_pos hlen] at h
          cases h
          rfl
        · rw [if_neg hlen] at h
          rcases h1 : reinsertWith (tryQuadsWith (insertF f)) items
              (subdivideQuads bdy cap d) [] (pushPath m id nidx) with
            _ | ⟨q1, keep, m2, s1⟩ <;> rw [h1] at h
          · simp at h
          dsimp only at h
          rcases h2 : tryQuadsWith (insertF f) id m2 q1 with _ | ⟨q2, m3, acc, s2⟩ <;>
            rw [h2] at h
          · simp at h
          cases h
          exact absurd (show (true : Bool) = false from hs) (by simp)
      · rw [if_pos hc] at h
        cases h
        rfl
    | branch d cap items bdy ne nw se sw =>
      simp only [insertF] at h
      by_cases hc : bdy.containsBd (lookupEnt m id).box
      · rw [if_neg (not_not_intro hc)] at h
        by_cases hlen : items.length < cap
        · rw [if_pos hlen] at h
          cases h
          rfl
        · rw [if_neg hlen] at h
          rcases h1 : reinsertWith (tryQuadsWith (insertF f)) items
              (ne, nw, se, sw) [] (pushPath m id nidx) with
            _ | ⟨q1, keep, m2, s1⟩ <;> rw [h1] at h
          · simp at h
          dsimp only at h
          rcases h2 : tryQuadsWith (insertF f) id m2 q1 with _ | ⟨q2, m3, acc, s2⟩ <;>
            rw [h2] at h
          · simp at h
          cases h
          obtain ⟨hsa, hsb⟩ := Bool.or_eq_false_iff.mp (show (s1 || s2) = false from hs)
          have Htq := fun id m q r h hflag =>
            tryQuads_msd (insertF f) Hins id m q r h hflag
          obtain ⟨e1, e2, e3, e4⟩ :=
            reinsert_msd (tryQuadsWith (insertF f)) Htq items (ne, nw, se, sw) []
              (pushPath m id nidx) _ h1 hsa
          obtain ⟨f1, f2, f3, f4⟩ := Htq id m2 q1 _ h2 hsb
          show (QuadTreeNode.branch d cap _ bdy q2.1 q2.2.1 q2.2.2.1 q2.2.2.2).msd =
            (QuadTreeNode.branch d cap items bdy ne nw se sw).msd
          unfold QuadTreeNode.msd
          rw [f1.trans e1, f2.trans e2, f3.trans e3, f4.trans e4]
      · rw [if_pos hc] at h
        cases h
        rfl

theorem lookupEnt_cons_self (id : Nat) (e : QEntity) (pth : B4Int) (m : EntityMap) :
    lookupEnt ((id, e, pth) :: m) id = e := by
  simp [lookupEnt, List.lookup]

theorem containsBd_pt_trans (A B : Bounds2D) (p : Vector2D)
    (hAB : A.containsBd B) (hp : B.containsPt p) : A.containsPt p := by
  obtain ⟨a1, a2, a3, a4⟩ := hAB
  obtain ⟨b1, b2, b3, b4⟩ := hp
  exact ⟨le_trans a1 b1, le_trans a2 b2, le_trans b3 a3, le_trans b4 a4⟩

theorem insertF_ret_bool (fuel id : Nat) (m : EntityMap) (nidx : Nat) (n : QuadTreeNode)
    (r : InsRes) (h : insertF fuel id m nidx n = some r) :
    r.2.2.1 = true ↔ (n.boundaryOf).containsBd (lookupEnt m id).box := by
  cases fuel with
  | zero => simp [insertF] at h
  | succ f =>
    cases n with
    | leaf d cap items bdy =>
      simp only [insertF] at h
      by_cases hc : bdy.containsBd (lookupEnt m id).box
      · rw [if_neg (not_not_intro hc)] at h
        by_cases hlen : items.length < cap
        · rw [if_pos hlen] at h
          cases h
          simpa [QuadTreeNode.boundaryOf] using hc
        · rw [if_neg hlen] at h
          rcases hr1 : reinsertWith (tryQuadsWith (insertF f)) items
              (subdivideQuads bdy cap d) [] (pushPath m id nidx) with
            _ | ⟨q1, keep, m2, s1⟩ <;> rw [hr1] at h
          · simp at h
          dsimp only at h
          rcases hr2 : tryQuadsWith (insertF f) id m2 q1 with _ | ⟨q2, m3, acc, s2⟩ <;>
            rw [hr2] at h
          · simp at h
          cases h
          simpa [QuadTreeNode.boundaryOf] using hc
      · rw [if_pos hc] at h
        cases h
        simpa [QuadTreeNode.boundaryOf] using hc
    | branch d cap items bdy ne nw se sw =>
      simp only [insertF] at h
      by_cases hc : bdy.containsBd (lookupEnt m id).box
      · rw [if_neg (not_not_intro hc)] at h
        by_cases hlen : items.length < cap
        · rw [if_pos hlen] at h
          cases h
          simpa [QuadTreeNode.boundaryOf] using hc
        · rw [if_neg hlen] at h
          rcases hr1 : reinsertWith (tryQuadsWith (insertF f)) items
              (ne, nw, se, sw) [] (pushPath m id nidx) with
            _ | ⟨q1, keep, m2, s1⟩ <;> rw [hr1] at h
          · simp at h
          dsimp only at h
          rcases hr2 : tryQuadsWith (insertF f) id m2 q1 with _ | ⟨q2, m3, acc, s2⟩ <;>
            rw [hr2] at h
          · simp at h
          cases h
          simpa [QuadTreeNode.boundaryOf] using hc
      · rw [if_pos hc] at h
        cases h
        simpa [QuadTreeNode.boundaryOf] using hc

theorem clamp_sq_le (v lo hi : Rat) (hlohi : lo ≤ hi) :
    (clampAxis v lo hi - v) * (clampAxis v lo hi - v) ≤ (v - lo) * (v - lo) ∧
    (clampAxis v lo hi - v) * (clampAxis v lo hi - v) ≤ (v - hi) * (v - hi) := by
  unfold clampAxis
  split_ifs with h1 h2
  · constructor <;> nlinarith
  · constructor <;> nlinarith
  · constructor <;> nlinarith

/-! ## Theorems for the claims -/

/-- Claim C1: the spec says `subdivide` creates 4 children whose rectangles
quarter the parent around its center, each well formed, together covering the
NE/NW/SE/SW quadrants without gap.  Evaluating the embedded `subdivide` at the
parent rectangle (0,0)–(10,10) shows the code's slip (it binds
`(min, max) = (boundary.max, boundary.min)`): NE and SW are correct and depths
are parent depth + 1, but the NW child is the inverted rectangle
(10,5)–(5,0) and the SE child the inverted (5,10)–(0,5), with
min > max componentwise, and the point (1,6) — inside the parent's true NW
quadrant — is contained in no child. -/
theorem c1_subdivide_children_eval :
    c1q.1 = .leaf 1 1 [] ⟨⟨5, 5⟩, ⟨10, 10⟩⟩ ∧
    c1q.2.2.2 = .leaf 1 1 [] ⟨⟨0, 0⟩, ⟨5, 5⟩⟩ ∧
    c1q.2.1 = .leaf 1 1 [] ⟨⟨10, 5⟩, ⟨5, 0⟩⟩ ∧
    c1q.2.2.1 = .leaf 1 1 [] ⟨⟨5, 10⟩, ⟨0, 5⟩⟩ ∧
    ¬ (c1q.2.1.boundaryOf.min.x ≤ c1q.2.1.boundaryOf.max.x) ∧
    ¬ (c1q.2.1.boundaryOf.min.y ≤ c1q.2.1.boundaryOf.max.y) ∧
    ¬ (c1q.2.2.1.boundaryOf.min.x ≤ c1q.2.2.1.boundaryOf.max.x) ∧
    Bounds2D.containsPt ⟨⟨0, 0⟩, ⟨10, 10⟩⟩ ⟨1, 6⟩ ∧
    ¬ c1q.1.boundaryOf.containsPt ⟨1, 6⟩ ∧
    ¬ c1q.2.1.boundaryOf.containsPt ⟨1, 6⟩ ∧
    ¬ c1q.2.2.1.boundaryOf.containsPt ⟨1, 6⟩ ∧
    ¬ c1q.2.2.2.boundaryOf.containsPt ⟨1, 6⟩ := by
  with_unfolding_all decide

/-- Claim C2: the spec says `query` with `Search(id)` scans a neighborhood for
the entity with that id and `Neighbour(radius)` collects all buckets of a
neighborhood of at least one cell.  Evaluating the embedded `query` on a grid
holding entity 5 in the cell of (10,10,0): a `Single` query at those
coordinates returns that bucket, but `Search 5` and `Neighbour` queries return
empty results (their branches are commented out in the source), even though the
queried cell itself holds the entity. -/
theorem c2_query_dead_branches_eval :
    hgInsert c2g0 ⟨5, (10, 10, 0)⟩ = some c2g1 ∧
    hgQuery c2g1 ⟨0, .single, (10, 10, 0)⟩ = some ⟨[4], [5]⟩ ∧
    hgQuery c2g1 ⟨1/2, .search 5, (10, 10, 0)⟩ = some ⟨[], []⟩ ∧
    hgQuery c2g1 ⟨1/2, .neighbour (1/2), (10, 10, 0)⟩ = some ⟨[], []⟩ := by
  with_unfolding_all decide

/-- Claim C5: the spec says out-of-bounds entities are silently skipped when
`wrap` is false (never an error).  Evaluating the embedding: the point
(-60,0,0) lies outside the volume centered at the origin with size
100×100×100 (its x is below the boundary minimum -50), yet `is_inside`
accepts it (the lower bound is never checked, since the source subtracts
`centre.abs()` instead of taking the absolute difference), so `insert` does
not skip it and instead panics converting the negative cell coordinate
(`to_u32().unwrap()`).  The same `is_inside` also returns true at
(-55,-55,-55), the exact point the repository's own `point_boundary_validation`
test asserts to be outside. -/
theorem c5_insert_out_of_bounds_panics_eval :
    ¬ insideVolume c5g.center c5g.size (-60, 0, 0) ∧
    isInsideG c5g.center c5g.size (-60, 0, 0) ∧
    hgInsert c5g ⟨9, (-60, 0, 0)⟩ = none ∧
    c5g.wrap = false ∧
    isInsideG (0, 0, 0) (100, 100, 100) (-55, -55, -55) ∧
    ¬ insideVolume (0, 0, 0) (100, 100, 100) (-55, -55, -55) := by
  with_unfolding_all decide

/-- Claim C7 counterexample: with min = (0,5) and max = (1,0), min is not
strictly less than max componentwise (5 > 0 on y), so the claim demands
`Err(InvalidBounds)` — but the source compares with the derived lexicographic
`PartialOrd`, for which (0,5) < (1,0) holds, and construction succeeds. -/
theorem c7_counterexample :
    isOkQT (quadTreeNew ⟨0, 5⟩ ⟨1, 0⟩ 1) = true ∧
    ¬ componentwiseLt ⟨0, 5⟩ ⟨1, 0⟩ := by
  with_unfolding_all decide

/-- Claim C8 counterexample: inserting entity 2, whose box (4,4)–(6,6)
straddles the center and is contained in no child quadrant (an "overflowing"
insert), into a capacity-1 tree whose root is full still subdivides the root
and raises `levels()` from 1 to 2 — so levels() does not increase only on
non-overflowing inserts. -/
theorem c8_counterexample :
    levelsT c8tA = 1 ∧
    treeInsert 2 c8tA c8B = some (.ok (c8tAfter, true)) ∧
    levelsT c8tAfter = 2 ∧
    ¬ c8q.1.boundaryOf.containsBd c8B.box ∧
    ¬ c8q.2.1.boundaryOf.containsBd c8B.box ∧
    ¬ c8q.2.2.1.boundaryOf.containsBd c8B.box ∧
    ¬ c8q.2.2.2.boundaryOf.containsBd c8B.box := by
  with_unfolding_all decide

/-- Claim C9 counterexample: the degenerate rectangle with zero width and
height (permitted by the invariant w,h ≥ 0) contains itself, but the strict
separating-axis `intersects` reports no intersection, so contains does not
imply intersects for every pair on which intersects is defined. -/
theorem c9_counterexample :
    containsG (.rect 0 0 0 0) (.rect 0 0 0 0) = some true ∧
    intersectsG (.rect 0 0 0 0) (.rect 0 0 0 0) = some false ∧
    geoWF (.rect 0 0 0 0) := by
  with_unfolding_all decide

/-- Claim C4: pushing any sequence of symbols from 0..3 into an empty
`Base4Int` with `push_all` and draining it with `pop_all` returns the same
sequence in the same order, for every length (in particular 0, 1, 63, 64, 65,
127, 128, 129, 500, which cross the 64-symbol block boundaries). -/
theorem c4_push_pop_roundtrip (vs : List Nat) (hv : ∀ v ∈ vs, v < 4) :
    popAllB4I (pushAllB4I [] vs) = vs := by
  have h0 : B4IntWF [] := ⟨by intro b hb; simp at hb, by intro b hb; simp at hb⟩
  have := push_all_steps vs [] h0 hv
  simpa [popAllB4I] using this

/-- Witness for C4 at the concrete sequence of the repository's own smoke
test, which also crosses no block boundary, plus a 130-symbol sequence that
crosses two. -/
theorem c4_witness :
    popAllB4I (pushAllB4I [] [0, 1, 2, 3, 2, 1, 0]) = [0, 1, 2, 3, 2, 1, 0] ∧
    popAllB4I (pushAllB4I [] ((List.range 130).map (· % 4))) = (List.range 130).map (· % 4) :=
  ⟨c4_push_pop_roundtrip [0, 1, 2, 3, 2, 1, 0] (by decide),
   c4_push_pop_roundtrip ((List.range 130).map (· % 4))
     (by
       intro v hvm
       simp only [List.mem_map] at hvm
       obtain ⟨w, _, hw⟩ := hvm
       omega)⟩

/-- Claim C6: `key(k1,k2)` computes the Cantor pairing value
`((k1+k2)*(k1+k2+1))/2 + k2`, and it is injective for all inputs below 32768
(a bound under which none of the `u32` operations can wrap: the largest
intermediate product is 65534·65535 < 2^32). -/
theorem c6_cantor_key_injective (a b c d : Nat)
    (ha : a < 32768) (hb : b < 32768) (hc : c < 32768) (hd : d < 32768) :
    cantorKeyU32 a b = (a + b) * (a + b + 1) / 2 + b ∧
    (cantorKeyU32 a b = cantorKeyU32 c d → a = c ∧ b = d) := by
  refine ⟨key_no_overflow a b ha hb, ?_⟩
  intro h
  rw [key_no_overflow a b ha hb, key_no_overflow c d hc hd] at h
  exact cantor_inj a b c d h

/-- Witness for C6 at (3, 5) against (4, 4): both pairs sum to the same
diagonal yet their keys differ, and the key value matches the formula. -/
theorem c6_witness :
    cantorKeyU32 3 5 = (3 + 5) * (3 + 5 + 1) / 2 + 5 ∧ (3 = 3 ∧ 5 = 5) :=
  ⟨(c6_cantor_key_injective 3 5 3 5 (by omega) (by omega) (by omega) (by omega)).1,
   (c6_cantor_key_injective 3 5 3 5 (by omega) (by omega) (by omega) (by omega)).2 rfl⟩

/-- Claim C7 (amended): `new` returns `Err(InvalidCapacity)` when
`capacity == 0`; otherwise it returns `Err(InvalidBounds)` exactly when `min`
is not lexicographically smaller than `max` (x compared first, then y — the
derived tuple `PartialOrd`, not the componentwise order the claim states), and
`Ok` otherwise, with the root an empty leaf of depth 0 carrying the given
boundary and capacity. -/
theorem c7_new_lex_characterization (mn mx : Vector2D) (cap : Nat) :
    (quadTreeNew mn mx cap = .error .invalidCapacity ↔ cap = 0) ∧
    (quadTreeNew mn mx cap = .error .invalidBounds ↔ (cap ≠ 0 ∧ ¬ vecLt mn mx)) ∧
    (∀ t, quadTreeNew mn mx cap = .ok t →
      t = ⟨[], .leaf 0 cap [] ⟨mn, mx⟩⟩ ∧ vecLt mn mx ∧ cap ≠ 0) := by
  unfold quadTreeNew
  by_cases hcap : cap = 0
  · simp [hcap]
  · by_cases hlt : vecLt mn mx
    · simp [hcap, hlt]
    · simp [hcap, hlt]

/-- Claim C9 (amended): for every pair of well-formed shapes on which
`intersects` is defined, `contains` implies `intersects` — except that in the
Rect ⊇ Rect case the inner rectangle must have positive width and height:
the strict separating-axis test reports no intersection for zero-extent
rectangles (see the counterexample), while all circle cases and the
Rect/Circle cases hold for all nonnegative radii and sizes. -/
theorem c9_contains_implies_intersects (a b : GeoTypes) (ha : geoWF a) (hb : geoWF b)
    (hpos : rectRectPos a b) (hdef : (intersectsG a b).isSome)
    (h : containsG a b = some true) : intersectsG a b = some true := by
  cases a with
  | point ax ay =>
    cases b <;> simp [containsG] at h
  | rect c1x c1y s1x s1y =>
    cases b with
    | point bx by' =>
      simp [intersectsG] at hdef
    | rect c2x c2y s2x s2y =>
      simp only [containsG, rectMinMax, Option.some_inj, decide_eq_true_eq] at h
      simp only [rectRectPos] at hpos
      simp only [intersectsG, rectMinMax, Option.some_inj, decide_eq_true_eq]
      obtain ⟨h1, h2, h3, h4⟩ := h
      obtain ⟨p1, p2⟩ := hpos
      refine ⟨by linarith, by linarith, by linarith, by linarith⟩
    | radius r cx cy =>
      simp only [containsG, rectMinMax, Option.some_inj, decide_eq_true_eq] at h
      simp only [geoWF] at hb
      simp only [intersectsG, rectMinMax, distSq, Option.some_inj, decide_eq_true_eq]
      obtain ⟨h1, h2, h3, h4⟩ := h
      have hcx : clampAxis cx (c1x - s1x / 2) (c1x + s1x / 2) = cx := by
        unfold clampAxis
        rw [if_neg (by linarith), if_neg (by linarith)]
      have hcy : clampAxis cy (c1y - s1y / 2) (c1y + s1y / 2) = cy := by
        unfold clampAxis
        rw [if_neg (by linarith), if_neg (by linarith)]
      rw [hcx, hcy]
      nlinarith [mul_self_nonneg r]
  | radius r cx cy =>
    cases b with
    | point bx by' =>
      simp [intersectsG] at hdef
    | rect cbx cby sx sy =>
      simp only [containsG, rectMinMax, distSq, Option.some_inj, decide_eq_true_eq] at h
      simp only [geoWF] at hb
      simp only [intersectsG, rectMinMax, distSq, Option.some_inj, decide_eq_true_eq]
      obtain ⟨h1, h2, h3, h4⟩ := h
      have hx := (clamp_sq_le cx (cbx - sx / 2) (cbx + sx / 2) (by linarith [hb.1])).1
      have hy := (clamp_sq_le cy (cby - sy / 2) (cby + sy / 2) (by linarith [hb.2])).1
      linarith [hx, hy, h4]
    | radius r2 c2x c2y =>
      simp only [containsG, distSq, Option.some_inj, decide_eq_true_eq] at h
      simp only [geoWF] at hb
      simp only [intersectsG, distSq, Option.some_inj, decide_eq_true_eq]
      obtain ⟨h1, h2⟩ := h
      nlinarith [h1, h2, hb]

/-- Witness for C9 at a circle of radius 2 containing a concentric circle of
radius 1. -/
theorem c9_witness :
    intersectsG (.radius 2 0 0) (.radius 1 0 0) = some true :=
  c9_contains_implies_intersects (.radius 2 0 0) (.radius 1 0 0)
    (by with_unfolding_all decide) (by with_unfolding_all decide)
    (by with_unfolding_all decide) rfl
    (by with_unfolding_all decide)

/-- Claim C3: `QuadTree::insert` returns `Err(OutOfBounds)` exactly when the
entity's bounding box is not contained in the root boundary, and whenever it
returns `Ok` the payload is `true` (under the fuel embedding this is a
statement about every terminating run; the spec itself notes in §9 that
pathological inputs make the recursion unbounded). -/
theorem c3_insert_ok_iff_contained (fuel : Nat) (t : QTree) (e : QEntity) :
    (treeInsert fuel t e = some (.error .outOfBounds) ↔
      ¬ (t.root.boundaryOf).containsBd e.box) ∧
    (∀ t2 b, treeInsert fuel t e = some (.ok (t2, b)) → b = true) := by
  unfold treeInsert
  by_cases hc : (t.root.boundaryOf).containsBd e.box
  · rw [if_neg (not_not_intro hc)]
    dsimp only
    constructor
    · constructor
      · intro h
        rcases h1 : insertF fuel e.eid ((e.eid, e, ([] : B4Int)) :: t.map) 0 t.root with
          _ | ⟨n1, m2, b1, s1⟩ <;> rw [h1] at h
        · simp at h
        · dsimp only at h
          simp at h
      · intro hn
        exact absurd hc hn
    · intro t2 b h
      rcases h1 : insertF fuel e.eid ((e.eid, e, ([] : B4Int)) :: t.map) 0 t.root with
        _ | ⟨n1, m2, b1, s1⟩ <;> rw [h1] at h
      · simp at h
      · dsimp only at h
        simp only [Option.some_inj, Except.ok.injEq, Prod.mk.injEq] at h
        rw [← h.2]
        have := (insertF_ret_bool fuel e.eid _ 0 t.root _ h1).mpr
        rw [lookupEnt_cons_self] at this
        exact this hc
  · rw [if_pos hc]
    refine ⟨by simp [hc], ?_⟩
    intro t2 b h
    simp at h

/-- Witness for C3: inserting an in-bounds entity into a fresh capacity-2 tree
returns `Ok(true)`, and the error-iff clause evaluated at the same input. -/
theorem c3_witness :
    treeInsert 1 c3t0 c3e = some (.ok (c3t1, true)) ∧ (true : Bool) = true :=
  ⟨by with_unfolding_all decide,
   (c3_insert_ok_iff_contained 1 c3t0 c3e).2 c3t1 true (by with_unfolding_all decide)⟩

/-- Claim C8 (amended): `levels()` (one more than the root's
`max_subtree_depth`) changes across an insert only when the subdivide branch
runs during that insert — that is, only when some node that is a leaf holding
at least `capacity` items receives one more insert; whether the inserted
entity is confinable to a single child quadrant is irrelevant (the
counterexample shows an overflowing insert also subdividing and increasing
`levels()`). -/
theorem c8_levels_increase_only_with_subdivision
    (fuel id nidx : Nat) (m : EntityMap) (n n2 : QuadTreeNode) (m2 : EntityMap) (b : Bool)
    (h : insertF fuel id m nidx n = some (n2, m2, b, false)) :
    n2.msd + 1 = n.msd + 1 :=
  congrArg (· + 1) (insertF_msd fuel id m nidx n (n2, m2, b, false) h rfl)

/-- Witness for C8: an insert into a root with spare capacity does not
subdivide, and the levels value is unchanged. -/
theorem c8_witness :
    (QuadTreeNode.leaf 0 2 [3] ⟨⟨0, 0⟩, ⟨10, 10⟩⟩).msd + 1 =
      (QuadTreeNode.leaf 0 2 [] ⟨⟨0, 0⟩, ⟨10, 10⟩⟩).msd + 1 :=
  c8_levels_increase_only_with_subdivision 1 3 0 [(3, c3e, [])]
    (.leaf 0 2 [] ⟨⟨0, 0⟩, ⟨10, 10⟩⟩) (.leaf 0 2 [3] ⟨⟨0, 0⟩, ⟨10, 10⟩⟩)
    [(3, c3e, pushB4I [] 0)] true (by with_unfolding_all decide)

/-- Claim C10: inserting two in-bounds entities that share an `EntityID` into
a quadtree of capacity at least 2 (so no subdivision happens) overwrites the
`EntityMap` entry with the second entity and a fresh path (the single root
index 0), while the node's item list keeps the id from the first call and
appends it again — so a point query inside the second entity's bounding box
returns that same entity twice. -/
theorem c10_duplicate_id_double_query
    (mn mx : Vector2D) (cap f : Nat) (hcap : 2 ≤ cap)
    (e1 e2 : QEntity) (hid : e1.eid = e2.eid) (p : Vector2D)
    (h1 : Bounds2D.containsBd ⟨mn, mx⟩ e1.box)
    (h2 : Bounds2D.containsBd ⟨mn, mx⟩ e2.box)
    (hp : e2.box.containsPt p) :
    ∃ t1 t2 : QTree,
      treeInsert (f + 1) ⟨[], .leaf 0 cap [] ⟨mn, mx⟩⟩ e1 = some (.ok (t1, true)) ∧
      treeInsert (f + 1) t1 e2 = some (.ok (t2, true)) ∧
      t2.root.itemsOf = [e2.eid, e2.eid] ∧
      List.lookup e2.eid t2.map = some (e2, pushB4I [] 0) ∧
      queryPoint t2 p = some [e2, e2] := by
  refine ⟨⟨[(e1.eid, e1, pushB4I [] 0)], .leaf 0 cap [e1.eid] ⟨mn, mx⟩⟩,
    ⟨[(e2.eid, e2, pushB4I [] 0), (e1.eid, e1, pushB4I (pushB4I [] 0) 0)],
     .leaf 0 cap [e1.eid, e2.eid] ⟨mn, mx⟩⟩, ?_, ?_, ?_, ?_, ?_⟩
  · unfold treeInsert
    dsimp only [QuadTreeNode.boundaryOf]
    rw [if_neg (not_not_intro h1)]
    have hins1 : insertF (f + 1) e1.eid [(e1.eid, e1, ([] : B4Int))] 0
        (.leaf 0 cap [] ⟨mn, mx⟩) =
        some (.leaf 0 cap [e1.eid] ⟨mn, mx⟩, [(e1.eid, e1, pushB4I [] 0)], true, false) := by
      simp only [insertF]
      rw [lookupEnt_cons_self]
      rw [if_neg (not_not_intro h1)]
      rw [if_pos (show (List.length ([] : List Nat)) < cap by simp; omega)]
      simp [pushPath]
    rw [hins1]
  · unfold treeInsert
    dsimp only [QuadTreeNode.boundaryOf]
    rw [if_neg (not_not_intro h2)]
    have hins2 : insertF (f + 1) e2.eid
        ((e2.eid, e2, ([] : B4Int)) :: [(e1.eid, e1, pushB4I [] 0)]) 0
        (.leaf 0 cap [e1.eid] ⟨mn, mx⟩) =
        some (.leaf 0 cap [e1.eid, e2.eid] ⟨mn, mx⟩,
          [(e2.eid, e2, pushB4I [] 0), (e1.eid, e1, pushB4I (pushB4I [] 0) 0)],
          true, false) := by
      simp only [insertF]
      rw [lookupEnt_cons_self]
      rw [if_neg (not_not_intro h2)]
      rw [if_pos (show (List.length [e1.eid]) < cap by simp; omega)]
      simp [pushPath, hid]
    rw [hins2]
  · simp only [QuadTreeNode.itemsOf]
    rw [hid]
  · simp [List.lookup]
  · have hr : Bounds2D.containsPt ⟨mn, mx⟩ p := containsBd_pt_trans _ _ _ h2 hp
    simp only [queryPoint, queryWithPoint]
    rw [if_neg (not_not_intro hr)]
    rw [hid]
    simp [List.filterMap, lookupEnt_cons_self, hp]

/-- Witness for C10 with two entities of id 7, boxes (1,1)–(2,2) and
(3,3)–(4,4), in a capacity-2 tree over (0,0)–(10,10), querying (3.5, 3.5). -/
theorem c10_witness :
    ∃ t1 t2 : QTree,
      treeInsert 1 ⟨[], .leaf 0 2 [] ⟨⟨0, 0⟩, ⟨10, 10⟩⟩⟩ c10e1 = some (.ok (t1, true)) ∧
      treeInsert 1 t1 c10e2 = some (.ok (t2, true)) ∧
      t2.root.itemsOf = [c10e2.eid, c10e2.eid] ∧
      List.lookup c10e2.eid t2.map = some (c10e2, pushB4I [] 0) ∧
      queryPoint t2 ⟨7/2, 7/2⟩ = some [c10e2, c10e2] :=
  c10_duplicate_id_double_query ⟨0, 0⟩ ⟨10, 10⟩ 2 0 (by omega) c10e1 c10e2 rfl
    ⟨7/2, 7/2⟩ (by with_unfolding_all decide) (by with_unfolding_all decide)
    (by with_unfolding_all decide)

/-- Witness for C7 at min = (0,0), max = (1,1), capacity 1: construction
succeeds and yields the fresh root. -/
theorem c7_witness :
    (⟨[], .leaf 0 1 [] ⟨⟨0, 0⟩, ⟨1, 1⟩⟩⟩ : QTree) = ⟨[], .leaf 0 1 [] ⟨⟨0, 0⟩, ⟨1, 1⟩⟩⟩ ∧
    vecLt ⟨0, 0⟩ ⟨1, 1⟩ ∧ (1 : Nat) ≠ 0 :=
  (c7_new_lex_characterization ⟨0, 0⟩ ⟨1, 1⟩ 1).2.2 ⟨[], .leaf 0 1 [] ⟨⟨0, 0⟩, ⟨1, 1⟩⟩⟩
    (by with_unfolding_all decide)

end Spatial
